import Mathlib

/-!
Verification of the Earl Box file-sharing service core
(`app/file_service.py`, `app/models.py`, `app/earl_box.py`).

The Python source is shallowly embedded: pure helpers become Lean
functions; the filesystem and the metadata table become explicit state
threaded through the upload pipeline; the nondeterministic inputs of the
code (the generated UUID string, the current timestamp, the
`mimetypes.guess_type` table, and whether the metadata insert succeeds)
become parameters in an environment record.  Byte strings are `List Nat`
values; POSIX paths are modelled by `PyPath` following the parsing and
joining rules of Python `pathlib.PurePosixPath`.  The binary64 float of
`format_file_size` is modelled by an exact unnormalized rational
(`PyFloat`): every operation that function performs on the inputs the
specification mentions is exact in binary64, so the two agree there.
-/

/-- Byte strings (`bytes` in Python) are modelled as lists of byte values. -/
abbrev Bytes := List Nat

/-- Split a character list at every occurrence of the separator, keeping
empty pieces, as Python `str.split(sep)` does. -/
def splitOnChar (sep : Char) : List Char → List (List Char)
  | [] => [[]]
  | c :: cs =>
    match splitOnChar sep cs with
    | [] => if c = sep then [[], []] else [[c]]
    | h :: t => if c = sep then [] :: h :: t else (c :: h) :: t

/-- Model of Python `pathlib.PurePosixPath`: an absolute flag plus the list
of path components.  Parsing drops empty components and single-dot
components, exactly as `PurePosixPath` does, and keeps `..` components. -/
structure PyPath where
  absolute : Bool
  comps : List String
deriving DecidableEq, Repr

/-- Parse a string into a `PyPath` the way `PurePosixPath(s)` does:
the path is absolute iff the string starts with a slash, and the
components are the slash-separated pieces with empty and `.` pieces
dropped. -/
def PyPath.parse (s : String) : PyPath :=
  ⟨match s.data with | '/' :: _ => true | _ => false,
   ((splitOnChar '/' s.data).map String.mk).filter (fun c => c ≠ "" && c ≠ ".")⟩

/-- Model of the `/` operator on `pathlib` paths: joining with an absolute
path discards the left operand, otherwise the components are appended. -/
def PyPath.div (p : PyPath) (s : String) : PyPath :=
  let q := PyPath.parse s
  if q.absolute then q else ⟨p.absolute, p.comps ++ q.comps⟩

/-- Embedding of `UPLOADS_DIR = Path("uploads")` from `app/file_service.py`. -/
def UPLOADS_DIR : PyPath := PyPath.parse "uploads"

/-- Embedding of `MAX_FILE_SIZE = 300 * 1024 * 1024` from `app/file_service.py`. -/
def MAX_FILE_SIZE : Nat := 300 * 1024 * 1024

/-- Index of the last occurrence of `.` in a list of characters, if any
(Python `str.rfind`, restricted to the dot character). -/
def lastDot : List Char → Option Nat
  | [] => none
  | c :: cs =>
    match lastDot cs with
    | some i => some (i + 1)
    | none => if c = '.' then some 0 else none

/-- Model of `PurePosixPath(s).name`: the final path component, or the
empty string for paths with no components. -/
def pyName (s : String) : String :=
  ((PyPath.parse s).comps.getLast?).getD ""

/-- Model of `PurePosixPath(s).suffix`: the extension of the final
component.  Per the CPython implementation, the suffix is the substring
of the name starting at the last dot, provided that dot is neither the
first nor the last character of the name; otherwise it is empty. -/
def pySuffix (s : String) : String :=
  let n := pyName s
  match lastDot n.data with
  | some i => if 0 < i ∧ i + 1 < n.data.length then String.mk (n.data.drop i) else ""
  | none => ""

/-- Embedding of `generate_unique_filename` from `app/file_service.py`.
The UUID produced by `uuid.uuid4()` is nondeterministic, so its rendered
string is taken as a parameter; the function returns the UUID string with
the suffix of the original filename appended. -/
def generate_unique_filename (uuid : String) (original_filename : String) : String :=
  uuid ++ pySuffix original_filename

/-- Extension extraction as the specification words it: the substring
after the last dot, including the dot, and empty when the filename
contains no dot.  Stated for comparison with `pySuffix`, which is what
the code computes. -/
def specExtension (s : String) : String :=
  match lastDot s.data with
  | some i => String.mk (s.data.drop i)
  | none => ""

/-- Exact model of the nonnegative binary64 value held by `size_float` in
`format_file_size`: an unnormalized fraction `num / den`.  The function
only ever divides by 1024, and on the inputs the specification mentions
every such division is exact in binary64, so this model coincides with
the float there. -/
structure PyFloat where
  num : Nat
  den : Nat
deriving DecidableEq, Repr

/-- The test `size_float >= 1024` on the exact-fraction model. -/
def PyFloat.ge1024 (q : PyFloat) : Bool :=
  1024 * q.den ≤ q.num

/-- The update `size_float /= 1024` on the exact-fraction model. -/
def PyFloat.div1024 (q : PyFloat) : PyFloat :=
  ⟨q.num, q.den * 1024⟩

/-- Embedding of `size_names` from `format_file_size`. -/
def size_names : List String := ["B", "KB", "MB", "GB", "TB"]

/-- The `while size_float >= 1024 and i < len(size_names) - 1` loop of
`format_file_size`.  The fuel argument is `len(size_names) - 1 - i`,
which strictly decreases, so the loop is total. -/
def fsLoop : Nat → Nat → PyFloat → Nat × PyFloat
  | 0, i, q => (i, q)
  | fuel + 1, i, q => if q.ge1024 then fsLoop fuel (i + 1) q.div1024 else (i, q)

/-- Model of Python `f"{x:.1f}"` on a nonnegative exact value: the value
scaled by ten is rounded to an integer with ties to even (the rounding
CPython applies to an exactly representable double) and printed with one
digit after the point. -/
def fmtFixed1 (q : PyFloat) : String :=
  let n := 10 * q.num
  let d := q.den
  let t0 := n / d
  let r := n % d
  let t := if d < 2 * r then t0 + 1
           else if 2 * r < d then t0
           else if t0 % 2 = 0 then t0 else t0 + 1
  toString (t / 10) ++ "." ++ toString (t % 10)

/-- Embedding of `format_file_size` from `app/file_service.py`. -/
def format_file_size (size_bytes : Nat) : String :=
  if size_bytes = 0 then "0 B"
  else
    let r := fsLoop (size_names.length - 1) 0 ⟨size_bytes, 1⟩
    fmtFixed1 r.2 ++ " " ++ size_names.getD r.1 ""

/-- Embedding of the `UploadedFile` model from `app/models.py`: one row of
the `uploaded_files` table.  `id` is `none` until the store assigns it;
timestamps are abstract `Nat` instants. -/
structure UploadedFile where
  id : Option Nat
  original_filename : String
  stored_filename : String
  file_size : Nat
  content_type : String
  upload_timestamp : Nat
  public_url : String
deriving DecidableEq, Repr

/-- The filesystem as the pipeline sees it: the regular files (path
mapped to content) and the directories that exist. -/
structure Fs where
  regular : List (PyPath × Bytes)
  dirs : List PyPath
deriving DecidableEq, Repr

/-- Model of `Path.exists`: true for regular files and directories alike. -/
def Fs.existsPath (fs : Fs) (p : PyPath) : Bool :=
  fs.regular.any (fun e => e.1 = p) || fs.dirs.contains p

/-- Reading the content of a regular file, if present. -/
def Fs.read (fs : Fs) (p : PyPath) : Option Bytes :=
  (fs.regular.find? (fun e => e.1 = p)).map Prod.snd

/-- Model of `open(path, "wb")` followed by a full write: the file is
created or truncated and holds exactly the given bytes. -/
def Fs.write (fs : Fs) (p : PyPath) (b : Bytes) : Fs :=
  ⟨(p, b) :: fs.regular.filter (fun e => e.1 ≠ p), fs.dirs⟩

/-- Model of `Path.unlink`: the regular file at the path is removed. -/
def Fs.unlink (fs : Fs) (p : PyPath) : Fs :=
  ⟨fs.regular.filter (fun e => e.1 ≠ p), fs.dirs⟩

/-- Embedding of `ensure_uploads_directory` from `app/file_service.py`:
`UPLOADS_DIR.mkdir(exist_ok=True)`. -/
def ensure_uploads_directory (fs : Fs) : Fs :=
  if fs.dirs.contains UPLOADS_DIR then fs else ⟨fs.regular, UPLOADS_DIR :: fs.dirs⟩

/-- Combined mutable state the pipeline acts on: the filesystem and the
metadata table.  Modelled from the spec: `app/database.py` is not among
the sources, so the metadata store is taken as §4.3 describes it — a
relational table whose rows this list holds in insertion order, where
insert appends a row and assigns the next id, and whose insert may fail
with an exception. -/
structure St where
  fs : Fs
  db : List UploadedFile
deriving DecidableEq, Repr

/-- Environment of one pipeline run: the generated UUID string, the
current timestamp, the `mimetypes.guess_type` table, and whether the
metadata insert succeeds (fault injection for the `except` branch). -/
structure Env where
  uuid : String
  now : Nat
  guess : String → Option String
  insertOk : Bool

/-- Python `a or b` on an optional string: `a` when present and
non-empty (truthy), else `b`. -/
def pyOr (a : Option String) (b : String) : String :=
  match a with
  | some s => if s = "" then b else s
  | none => b

/-- Embedding of `save_uploaded_file` from `app/file_service.py` (the
FastAPI `UploadFile` path).  `filename` is `upload_file.filename`,
`content` the bytes `upload_file.file.read()` yields, `content_type` the
declared `upload_file.content_type`.  Returns the optional record and
the state after the call. -/
def save_uploaded_file (env : Env) (filename : Option String) (content : Bytes)
    (content_type : Option String) (st : St) : Option UploadedFile × St :=
  match filename with
  | none => (none, st)
  | some name =>
    if MAX_FILE_SIZE < content.length then (none, st)
    else
      let fs1 := ensure_uploads_directory st.fs
      let stored_filename := generate_unique_filename env.uuid name
      let file_path := UPLOADS_DIR.div stored_filename
      let fs2 := fs1.write file_path content
      let ct := pyOr content_type (pyOr (env.guess name) "application/octet-stream")
      let uploaded_file : UploadedFile :=
        ⟨none, name, stored_filename, content.length, ct, env.now,
         "/files/" ++ stored_filename⟩
      if env.insertOk then
        let row := { uploaded_file with id := some (st.db.length + 1) }
        (some row, ⟨fs2, st.db ++ [row]⟩)
      else
        let fs3 := if fs2.existsPath file_path then fs2.unlink file_path else fs2
        (none, ⟨fs3, st.db⟩)

/-- Embedding of `save_upload_event` from `app/file_service.py` (the
NiceGUI event path).  `name` is `upload_event.name`, `content` the bytes
`upload_event.content.read()` yields, `type` the declared
`upload_event.type`. -/
def save_upload_event (env : Env) (name : Option String) (content : Bytes)
    (type : Option String) (st : St) : Option UploadedFile × St :=
  match name with
  | none => (none, st)
  | some n =>
    if MAX_FILE_SIZE < content.length then (none, st)
    else
      let fs1 := ensure_uploads_directory st.fs
      let stored_filename := generate_unique_filename env.uuid n
      let file_path := UPLOADS_DIR.div stored_filename
      let fs2 := fs1.write file_path content
      let ct := pyOr type (pyOr (env.guess n) "application/octet-stream")
      let uploaded_file : UploadedFile :=
        ⟨none, n, stored_filename, content.length, ct, env.now,
         "/files/" ++ stored_filename⟩
      if env.insertOk then
        let row := { uploaded_file with id := some (st.db.length + 1) }
        (some row, ⟨fs2, st.db ++ [row]⟩)
      else
        let fs3 := if fs2.existsPath file_path then fs2.unlink file_path else fs2
        (none, ⟨fs3, st.db⟩)

/-- Embedding of `get_file_path` from `app/file_service.py`: join the
stored name onto `UPLOADS_DIR` and return the path when it exists. -/
def get_file_path (fs : Fs) (stored_filename : String) : Option PyPath :=
  let file_path := UPLOADS_DIR.div stored_filename
  if fs.existsPath file_path then some file_path else none

/-- Stable insertion of a row into a list already sorted by timestamp
descending: the row goes after every row with a timestamp at least as
large that was inserted before it would be reached, i.e. before the
first row whose timestamp is less than or equal to its own. -/
def insertByTs (r : UploadedFile) : List UploadedFile → List UploadedFile
  | [] => [r]
  | x :: xs =>
    if x.upload_timestamp ≤ r.upload_timestamp then r :: x :: xs
    else x :: insertByTs r xs

/-- Stable sort of the table rows by timestamp descending, keeping
insertion order among equal timestamps. -/
def sortByTsDesc : List UploadedFile → List UploadedFile
  | [] => []
  | r :: rs => insertByTs r (sortByTsDesc rs)

/-- Embedding of `get_all_uploaded_files` from `app/file_service.py`.
Modelled from the spec: the `SELECT ... ORDER BY upload_timestamp DESC`
executes inside the database engine behind `app/database.py`, which is
not among the sources; §4.3 specifies the result as ordered by
`uploadedAt` descending with ties broken by insertion order (stable),
modelled here as a stable descending sort of the rows in insertion
order. -/
def get_all_uploaded_files (db : List UploadedFile) : List UploadedFile :=
  sortByTsDesc db

/-- Resolution of `..` components against their preceding components,
used to state whether a path stays inside the uploads directory. -/
def normComps (cs : List String) : List String :=
  cs.foldl (fun acc c => if c = ".." then acc.dropLast else acc ++ [c]) []

/-- A path stays under the uploads directory when it is relative and,
after resolving `..` components, still starts at the `uploads`
component. -/
def underUploads (p : PyPath) : Bool :=
  !p.absolute &&
    (match normComps p.comps with
     | c :: _ => c = "uploads"
     | [] => false)

theorem Fs.existsPath_write (fs : Fs) (p : PyPath) (b : Bytes) :
    (fs.write p b).existsPath p = true := by
  simp [Fs.existsPath, Fs.write]

theorem Fs.read_write (fs : Fs) (p : PyPath) (b : Bytes) :
    (fs.write p b).read p = some b := by
  simp [Fs.read, Fs.write]

theorem find?_filter_ne (l : List (PyPath × Bytes)) (p : PyPath) :
    (l.filter (fun e => e.1 ≠ p)).find? (fun e => e.1 = p) = none := by
  induction l with
  | nil => rfl
  | cons x xs ih =>
    by_cases h : x.1 = p
    · simp [List.filter_cons, h, ih]
    · simp [List.filter_cons, h, List.find?, ih]

theorem Fs.read_unlink (fs : Fs) (p : PyPath) :
    (fs.unlink p).read p = none := by
  simp [Fs.read, Fs.unlink, find?_filter_ne]

/-- C8: `format_file_size` maps 0 to "0 B", 512 to "512.0 B", 1024 to
"1.0 KB", 1536 to "1.5 KB", 1048576 to "1.0 MB" and 1073741824 to
"1.0 GB". -/
theorem format_file_size_spec_values :
    format_file_size 0 = "0 B" ∧ format_file_size 512 = "512.0 B" ∧
    format_file_size 1024 = "1.0 KB" ∧ format_file_size 1536 = "1.5 KB" ∧
    format_file_size 1048576 = "1.0 MB" ∧ format_file_size 1073741824 = "1.0 GB" := by
  refine ⟨?_, ?_, ?_, ?_, ?_, ?_⟩ <;> decide

/-- C7, counterexample: the claim reads the extension as the substring
after the last dot whenever the filename contains a dot, but on
".bashrc" the code (Python `Path.suffix`) yields the empty extension, so
the generated name is not the token followed by ".bashrc". -/
theorem generate_unique_filename_specext_cex :
    generate_unique_filename "u" ".bashrc" ≠ "u" ++ specExtension ".bashrc" := by
  decide

/-- C7, amended: `generate_unique_filename` returns the token followed by
`pySuffix` of the original filename — the extension of the final path
component, equal to the substring from the last dot of that component
exactly when the dot is neither the component's first nor last
character, and empty otherwise (in particular when there is no dot). -/
theorem generate_unique_filename_extension (uuid s : String) :
    generate_unique_filename uuid s = uuid ++ pySuffix s ∧
    (lastDot (pyName s).data = none → pySuffix s = "") ∧
    (∀ i, lastDot (pyName s).data = some i → 0 < i → i + 1 < (pyName s).data.length →
      pySuffix s = specExtension (pyName s)) := by
  refine ⟨rfl, ?_, ?_⟩
  · intro h
    simp [pySuffix, h]
  · intro i h h1 h2
    have h2s : i + 1 < (pyName s).length := h2
    simp [pySuffix, specExtension, h, h1, h2, h2s]

/-- Closed instance of `generate_unique_filename_extension` at the input
"a.txt", whose last dot is interior, so the suffix agrees with the
substring-from-last-dot reading. -/
theorem generate_unique_filename_extension_witness :
    generate_unique_filename "tok" "a.txt" = "tok" ++ pySuffix "a.txt" ∧
    pySuffix "a.txt" = specExtension (pyName "a.txt") := by
  have h := generate_unique_filename_extension "tok" "a.txt"
  exact ⟨h.1, h.2.2 1 (by decide) (by decide) (by decide)⟩

/-- C2: an upload whose content exceeds `MAX_FILE_SIZE` is rejected and
the call leaves the filesystem and the metadata table untouched — the
size check happens before any side effect. -/
theorem save_uploaded_file_too_large (env : Env) (name : String) (content : Bytes)
    (declared : Option String) (st : St) (h : MAX_FILE_SIZE < content.length) :
    save_uploaded_file env (some name) content declared st = (none, st) := by
  simp [save_uploaded_file, h]

/-- Closed instance of `save_uploaded_file_too_large` on a content of
length `MAX_FILE_SIZE + 1`. -/
theorem save_uploaded_file_too_large_witness :
    save_uploaded_file ⟨"u", 0, fun _ => none, true⟩ (some "a.txt")
      (List.replicate (MAX_FILE_SIZE + 1) 0) none ⟨⟨[], []⟩, []⟩ = (none, ⟨⟨[], []⟩, []⟩) :=
  save_uploaded_file_too_large _ _ _ _ _ (by simp)

/-- C4, counterexample: an upload whose filename is the empty string is
not rejected — only `None` is; with the empty name the pipeline runs to
completion, writes a blob and creates a metadata record, so the call
does not return the untouched state. -/
theorem save_uploaded_file_empty_name_cex :
    save_uploaded_file ⟨"u", 0, fun _ => none, true⟩ (some "") [] none ⟨⟨[], []⟩, []⟩
      ≠ (none, ⟨⟨[], []⟩, []⟩) := by
  decide

/-- C4, amended: both entry points reject an upload whose filename is
absent (`None`) before any side effect: the result is `none` and the
state is returned unchanged.  An empty-string filename is not rejected
(see the counterexample). -/
theorem save_missing_filename_rejected (env : Env) (content : Bytes)
    (declared : Option String) (st : St) :
    save_uploaded_file env none content declared st = (none, st) ∧
    save_upload_event env none content declared st = (none, st) :=
  ⟨rfl, rfl⟩

/-- C10: the NiceGUI event entry point and the FastAPI entry point are
behaviourally equivalent — on the same filename, content, declared
content type, environment and state, they return the same result and
the same final state. -/
theorem save_entry_points_agree (env : Env) (name : Option String) (content : Bytes)
    (declared : Option String) (st : St) :
    save_upload_event env name content declared st
      = save_uploaded_file env name content declared st := by
  cases name <;> rfl

/-- C3, counterexample: `get_file_path` performs no sanitization of the
stored name; for the absolute name "/etc/passwd" the `pathlib` join
discards the uploads directory entirely, and when such a file exists the
function returns a path outside the uploads directory. -/
theorem get_file_path_escape_cex :
    get_file_path ⟨[(⟨true, ["etc", "passwd"]⟩, [0])], []⟩ "/etc/passwd"
      = some ⟨true, ["etc", "passwd"]⟩ ∧
    underUploads ⟨true, ["etc", "passwd"]⟩ = false := by
  decide

/-- C1: an upload with a present, non-empty filename whose content fits
in `MAX_FILE_SIZE` succeeds (when the metadata insert does), the
returned record's `file_size` equals the content length, and resolving
the record's `stored_filename` through `get_file_path` on the resulting
state yields a path whose blob content is exactly the uploaded bytes. -/
theorem save_uploaded_file_roundtrip (env : Env) (name : String) (content : Bytes)
    (declared : Option String) (st : St)
    (_hname : name ≠ "") (hsz : content.length ≤ MAX_FILE_SIZE) (hok : env.insertOk = true) :
    ∃ r st2, save_uploaded_file env (some name) content declared st = (some r, st2) ∧
      r.file_size = content.length ∧
      ∃ p, get_file_path st2.fs r.stored_filename = some p ∧
        st2.fs.read p = some content := by
  have hlt : ¬ MAX_FILE_SIZE < content.length := Nat.not_lt.mpr hsz
  simp only [save_uploaded_file, if_neg hlt, hok, if_true]
  refine ⟨_, _, rfl, rfl, _, ?_, Fs.read_write _ _ _⟩
  simp [get_file_path, Fs.existsPath_write]

/-- Closed instance of `save_uploaded_file_roundtrip` at a small concrete
upload. -/
theorem save_uploaded_file_roundtrip_witness :
    ∃ r st2, save_uploaded_file ⟨"u", 7, fun _ => none, true⟩ (some "test.txt") [1, 2, 3]
        (some "text/plain") ⟨⟨[], []⟩, []⟩ = (some r, st2) ∧
      r.file_size = [1, 2, 3].length ∧
      ∃ p, get_file_path st2.fs r.stored_filename = some p ∧
        st2.fs.read p = some [1, 2, 3] :=
  save_uploaded_file_roundtrip _ "test.txt" _ _ _ (by decide) (by decide) (by decide)

/-- C5: when the metadata insert fails after the blob write, the call
returns the failure outcome, the metadata table is left exactly as it
was, and the just-written blob at the generated stored name has been
deleted (the best-effort rollback succeeded in the model, where unlink
does not fail). -/
theorem save_uploaded_file_insert_rollback (env : Env) (name : String) (content : Bytes)
    (declared : Option String) (st : St)
    (hsz : content.length ≤ MAX_FILE_SIZE) (hfail : env.insertOk = false) :
    ∃ st2, save_uploaded_file env (some name) content declared st = (none, st2) ∧
      st2.db = st.db ∧
      st2.fs.read (UPLOADS_DIR.div (generate_unique_filename env.uuid name)) = none := by
  have hlt : ¬ MAX_FILE_SIZE < content.length := Nat.not_lt.mpr hsz
  simp only [save_uploaded_file, if_neg hlt, hfail, if_false, Bool.false_eq_true,
    Fs.existsPath_write, if_true]
  exact ⟨_, rfl, rfl, Fs.read_unlink _ _⟩

/-- Closed instance of `save_uploaded_file_insert_rollback` at a small
concrete upload with the insert made to fail. -/
theorem save_uploaded_file_insert_rollback_witness :
    ∃ st2, save_uploaded_file ⟨"u", 7, fun _ => none, false⟩ (some "test.txt") [1, 2, 3]
        none ⟨⟨[], []⟩, []⟩ = (none, st2) ∧
      st2.db = (⟨⟨[], []⟩, []⟩ : St).db ∧
      st2.fs.read (UPLOADS_DIR.div (generate_unique_filename "u" "test.txt")) = none :=
  save_uploaded_file_insert_rollback _ "test.txt" _ _ _ (by decide) (by decide)

theorem foldl_norm_no_dotdot (cs : List String) (acc : List String) (h : ".." ∉ cs) :
    List.foldl (fun acc c => if c = ".." then acc.dropLast else acc ++ [c]) acc cs
      = acc ++ cs := by
  induction cs generalizing acc with
  | nil => simp
  | cons c cs ih =>
    simp only [List.mem_cons, not_or] at h
    rw [List.foldl_cons, if_neg (fun hh => h.1 hh.symm), ih _ h.2]
    simp

/-- C3, amended: `get_file_path` performs no sanitization; it joins the
stored name onto the uploads directory and returns the joined path
whenever it exists.  The returned path stays under the uploads directory
provided the stored name is relative and contains no `..` component;
absolute names and `..` components can escape (see the counterexample). -/
theorem get_file_path_no_traversal_safe (fs : Fs) (s : String) (p : PyPath)
    (habs : (PyPath.parse s).absolute = false)
    (hdd : ".." ∉ (PyPath.parse s).comps)
    (hres : get_file_path fs s = some p) :
    underUploads p = true := by
  simp only [get_file_path] at hres
  split at hres
  · have hp : p = UPLOADS_DIR.div s := (Option.some.injEq _ _).mp hres.symm
    have hdiv : UPLOADS_DIR.div s = ⟨false, "uploads" :: (PyPath.parse s).comps⟩ := by
      unfold PyPath.div
      rw [if_neg (by simp [habs]),
        show UPLOADS_DIR = (⟨false, ["uploads"]⟩ : PyPath) from by decide]
      rfl
    have hnorm : normComps ("uploads" :: (PyPath.parse s).comps)
        = "uploads" :: (PyPath.parse s).comps := by
      unfold normComps
      rw [List.foldl_cons, if_neg (by decide), foldl_norm_no_dotdot _ _ hdd]
      simp
    rw [hp, hdiv]
    unfold underUploads
    rw [hnorm]
    simp
  · exact absurd hres (by simp)

/-- Closed instance of `get_file_path_no_traversal_safe` at a plain
relative stored name. -/
theorem get_file_path_no_traversal_safe_witness :
    underUploads ⟨false, ["uploads", "x.txt"]⟩ = true :=
  get_file_path_no_traversal_safe ⟨[(⟨false, ["uploads", "x.txt"]⟩, [5])], []⟩ "x.txt"
    ⟨false, ["uploads", "x.txt"]⟩ (by decide) (by decide) (by decide)

/-- C9: `get_file_path` tests only existence, not regular-file-ness: a
stored name that joins to an existing directory is resolved to that
directory rather than reported absent, and in particular the empty
stored name resolves to the uploads directory itself whenever that
directory exists. -/
theorem get_file_path_directory_hit (fs : Fs) (s : String)
    (h : UPLOADS_DIR.div s ∈ fs.dirs) :
    get_file_path fs s = some (UPLOADS_DIR.div s) ∧
    (UPLOADS_DIR ∈ fs.dirs → get_file_path fs "" = some UPLOADS_DIR) := by
  constructor
  · have hex : fs.existsPath (UPLOADS_DIR.div s) = true := by
      simp [Fs.existsPath]
      exact Or.inr h
    simp [get_file_path, hex]
  · intro hu
    have hdiv : UPLOADS_DIR.div "" = UPLOADS_DIR := by decide
    have hex2 : fs.existsPath UPLOADS_DIR = true := by
      simp [Fs.existsPath]
      exact Or.inr hu
    simp [get_file_path, hdiv, hex2]

/-- Closed instance of `get_file_path_directory_hit` with a directory
under uploads and the uploads directory itself present. -/
theorem get_file_path_directory_hit_witness :
    get_file_path ⟨[], [⟨false, ["uploads", "d"]⟩, ⟨false, ["uploads"]⟩]⟩ "d"
      = some (UPLOADS_DIR.div "d") ∧
    (UPLOADS_DIR ∈ (⟨[], [⟨false, ["uploads", "d"]⟩, ⟨false, ["uploads"]⟩]⟩ : Fs).dirs →
      get_file_path ⟨[], [⟨false, ["uploads", "d"]⟩, ⟨false, ["uploads"]⟩]⟩ ""
        = some UPLOADS_DIR) :=
  get_file_path_directory_hit _ "d" (by decide)

theorem insertByTs_perm (r : UploadedFile) (l : List UploadedFile) :
    (insertByTs r l).Perm (r :: l) := by
  induction l with
  | nil => exact List.Perm.refl _
  | cons x xs ih =>
    unfold insertByTs
    by_cases h : x.upload_timestamp ≤ r.upload_timestamp
    · rw [if_pos h]
    · rw [if_neg h]
      exact (ih.cons x).trans (List.Perm.swap r x xs)

theorem insertByTs_pairwise (r : UploadedFile) (l : List UploadedFile)
    (hl : l.Pairwise (fun a b => b.upload_timestamp ≤ a.upload_timestamp)) :
    (insertByTs r l).Pairwise (fun a b => b.upload_timestamp ≤ a.upload_timestamp) := by
  induction l with
  | nil => simp [insertByTs]
  | cons x xs ih =>
    rcases List.pairwise_cons.mp hl with ⟨hx, hxs⟩
    unfold insertByTs
    by_cases h : x.upload_timestamp ≤ r.upload_timestamp
    · rw [if_pos h]
      refine List.pairwise_cons.mpr ⟨?_, hl⟩
      intro b hb
      rcases List.mem_cons.mp hb with hb | hb
      · rw [hb]; exact h
      · exact le_trans (hx b hb) h
    · rw [if_neg h]
      refine List.pairwise_cons.mpr ⟨?_, ih hxs⟩
      intro b hb
      have hb2 : b ∈ r :: xs := (insertByTs_perm r xs).subset hb
      rcases List.mem_cons.mp hb2 with hb2 | hb2
      · rw [hb2]; exact Nat.le_of_lt (Nat.lt_of_not_le h)
      · exact hx b hb2

theorem filter_insertByTs (r : UploadedFile) (l : List UploadedFile) (t : Nat) :
    (insertByTs r l).filter (fun x => x.upload_timestamp = t)
      = if r.upload_timestamp = t
        then r :: l.filter (fun x => x.upload_timestamp = t)
        else l.filter (fun x => x.upload_timestamp = t) := by
  induction l with
  | nil =>
    by_cases hr : r.upload_timestamp = t <;> simp [insertByTs, List.filter, hr]
  | cons x xs ih =>
    unfold insertByTs
    by_cases h : x.upload_timestamp ≤ r.upload_timestamp
    · rw [if_pos h]
      by_cases hr : r.upload_timestamp = t <;> simp [List.filter_cons, hr]
    · rw [if_neg h]
      by_cases hr : r.upload_timestamp = t
      · have hx : ¬ x.upload_timestamp = t := by omega
        simp [List.filter_cons, hx, ih, hr]
      · simp [List.filter_cons, ih, hr]

theorem sortByTsDesc_perm (l : List UploadedFile) : (sortByTsDesc l).Perm l := by
  induction l with
  | nil => exact List.Perm.refl _
  | cons r rs ih => exact (insertByTs_perm r (sortByTsDesc rs)).trans (ih.cons r)

theorem sortByTsDesc_pairwise (l : List UploadedFile) :
    (sortByTsDesc l).Pairwise (fun a b => b.upload_timestamp ≤ a.upload_timestamp) := by
  induction l with
  | nil => simp [sortByTsDesc]
  | cons r rs ih => exact insertByTs_pairwise r _ ih

theorem sortByTsDesc_filter (l : List UploadedFile) (t : Nat) :
    (sortByTsDesc l).filter (fun x => x.upload_timestamp = t)
      = l.filter (fun x => x.upload_timestamp = t) := by
  induction l with
  | nil => rfl
  | cons r rs ih =>
    unfold sortByTsDesc
    rw [filter_insertByTs]
    by_cases hr : r.upload_timestamp = t
    · rw [if_pos hr, ih, List.filter_cons, if_pos (by simp [hr])]
    · rw [if_neg hr, ih, List.filter_cons, if_neg (by simp [hr])]

/-- C6: the listing returns exactly the records of the table, ordered by
upload timestamp descending, and records with equal timestamps appear in
insertion order — for every timestamp, restricting the listing to that
timestamp gives the table rows with that timestamp in their original
order (stability). -/
theorem get_all_uploaded_files_sorted_stable (db : List UploadedFile) :
    (get_all_uploaded_files db).Perm db ∧
    (get_all_uploaded_files db).Pairwise
      (fun a b => b.upload_timestamp ≤ a.upload_timestamp) ∧
    ∀ t, (get_all_uploaded_files db).filter (fun r => r.upload_timestamp = t)
        = db.filter (fun r => r.upload_timestamp = t) :=
  ⟨sortByTsDesc_perm db, sortByTsDesc_pairwise db, fun t => sortByTsDesc_filter db t⟩
